import Mathlib

/-!
Verification development for the trading-platform strategy-execution engine.

Client-side definitions are translated from `frontend/js/backtesting.js`
(the `pollForBacktestResults` / `displayBacktestResults` functions).
Engine-side definitions (Signal Evaluator, Backtest Driver, Order/Position
Ledger, RunState lease, summary metrics) are modelled from the specification,
since the backend worker code is not part of the available sources.
-/

namespace TradingEngine

/-! ### Backtest result payload (shape from the spec §6 / `displayBacktestResults`) -/

/-- One OHLCV bar.  Field names follow the `ohlcv_data` records consumed by
`displayBacktestResults` (`time, open, high, low, close`); `open` is a Lean
keyword so the price fields carry a `Price` suffix. -/
structure Bar where
  time : Nat
  openPrice : Rat
  highPrice : Rat
  lowPrice : Rat
  closePrice : Rat
  volume : Rat
  deriving Repr, DecidableEq

/-- One point of the equity curve (`equity_curve` records: `time, value`). -/
structure EquityPoint where
  time : Nat
  value : Rat
  deriving Repr, DecidableEq

/-- One entry of the trade log (`trades_log` records as consumed by
`displayBacktestResults`). -/
structure Trade where
  type : String
  entry_time : Nat
  entry_price : Rat
  exit_time : Option Nat
  exit_price : Option Rat
  size : Rat
  pnl : Rat
  reason : String
  deriving Repr, DecidableEq

/-- The `details` object of a completed backtest (spec §6: present only when
`status == completed`). -/
structure BacktestDetails where
  trades_log : List Trade
  equity_curve : List EquityPoint
  ohlcv_data : List Bar
  sharpe_ratio : Rat
  max_drawdown : Rat
  win_rate : Rat
  total_trades : Nat
  pnl : Rat
  pnl_percentage : Rat
  final_equity : Rat
  deriving Repr, DecidableEq

/-- The `{status, details?}` record returned by `getBacktest(backtestId)`. -/
structure BacktestResultResponse where
  status : String
  status_message : Option String
  details : Option BacktestDetails
  deriving Repr, DecidableEq

/-- Modelled from the spec: `getBacktest` returns `{status, details?}` where
`details` is present exactly when `status == completed`. -/
def wellFormedResponse (r : BacktestResultResponse) : Prop :=
  r.details.isSome ↔ r.status = "completed"

/-! ### The polling client (`pollForBacktestResults` in `backtesting.js`) -/

/-- Outcome of one `fetch` of `/api/v1/backtests/{id}`: an OK response with a
parsed body, a non-OK HTTP status, or a thrown network error. -/
inductive FetchResult where
  | ok (body : BacktestResultResponse)
  | httpError (status : Nat)
  | networkError
  deriving Repr, DecidableEq

/-- What one tick of the polling interval does after its fetch resolves. -/
inductive StepAction where
  | keepPolling
  | stopNotFound
  | stopRender (r : BacktestResultResponse)
  | stopMessage (status : String) (msg : Option String)
  | stopUnknown (status : String) (msg : Option String)
  deriving Repr, DecidableEq

/-- The `pollInterval` constant of `pollForBacktestResults` (milliseconds). -/
def pollIntervalMs : Nat := 5000

/-- The `maxAttempts` constant of `pollForBacktestResults`. -/
def maxAttempts : Nat := 360

/-- One tick of `pollForBacktestResults` after the fetch resolves, translated
branch-for-branch from `backtesting.js` lines 256–293: HTTP 404 aborts with
"not found"; any other non-OK status and any network error just log and keep
polling; `completed` stops and renders the results; `failed`/`no_data` stop
with only a status message; `running`/`queued` keep polling; any other status
stops with an "unknown status" message. -/
def pollStep (r : FetchResult) : StepAction :=
  match r with
  | .httpError s => if s = 404 then .stopNotFound else .keepPolling
  | .networkError => .keepPolling
  | .ok body =>
      if body.status = "completed" ∨ body.status = "failed" ∨ body.status = "no_data" then
        if body.status = "completed" then .stopRender body
        else .stopMessage body.status body.status_message
      else if body.status = "running" ∨ body.status = "queued" then .keepPolling
      else .stopUnknown body.status body.status_message

/-- Final outcome of the polling loop. -/
inductive PollOutcome where
  | timeout
  | notFound
  | rendered (r : BacktestResultResponse)
  | statusMessage (status : String) (msg : Option String)
  | unknownStatus (status : String) (msg : Option String)
  deriving Repr, DecidableEq

/-- The polling loop from attempt number `attempt` with `remaining` attempts
left before the `attempts > maxAttempts` timeout check fires.  `responses a`
is the fetch result observed on attempt `a`. -/
def pollFrom (responses : Nat → FetchResult) : Nat → Nat → PollOutcome
  | _, 0 => .timeout
  | attempt, n + 1 =>
      match pollStep (responses attempt) with
      | .keepPolling => pollFrom responses (attempt + 1) n
      | .stopNotFound => .notFound
      | .stopRender r => .rendered r
      | .stopMessage s m => .statusMessage s m
      | .stopUnknown s m => .unknownStatus s m

/-- The whole polling loop `pollForBacktestResults`: attempts are numbered from 1 and at most
`maxAttempts` fetches happen; the check `attempts > maxAttempts` then reports
a timeout. -/
def pollForBacktestResults (responses : Nat → FetchResult) : PollOutcome :=
  pollFrom responses 1 maxAttempts

/-- Number of fetches the polling loop performs from attempt `attempt` with
`remaining` attempts left. -/
def pollFetchesFrom (responses : Nat → FetchResult) : Nat → Nat → Nat
  | _, 0 => 0
  | attempt, n + 1 =>
      match pollStep (responses attempt) with
      | .keepPolling => 1 + pollFetchesFrom responses (attempt + 1) n
      | _ => 1

/-- Total number of fetches `pollForBacktestResults` performs. -/
def pollFetches (responses : Nat → FetchResult) : Nat :=
  pollFetchesFrom responses 1 maxAttempts

/-! ### Signal Evaluator (spec §4.1)

Modelled from the spec: the backend strategy modules are not among the
available sources.  The spec fixes the contract — `evaluate(parameters,
window) -> Intent`, a deterministic side-effect-free function; a window
shorter than the strategy's minimum lookback returns `hold`, never an
error — and describes per-file strategy modules in the source ecosystem.
The representative strategy here is a moving-average crossover. -/

/-- Direction of an Intent (spec §3: long/short/flat). -/
inductive Direction where
  | long
  | short
  | flat
  deriving Repr, DecidableEq

/-- Modelled from the spec: one Evaluator output — direction, requested size
and reason code (spec §3, Intent).  The subscription id and timestamp are
attached by the caller, not computed by `evaluate`. -/
structure Intent where
  direction : Direction
  size : Rat
  reason : String
  deriving Repr, DecidableEq

/-- Modelled from the spec: validated strategy parameters of the
representative moving-average crossover strategy. -/
structure EvalParams where
  shortPeriod : Nat
  longPeriod : Nat
  tradeSize : Rat
  deriving Repr, DecidableEq

/-- Modelled from the spec: the strategy's minimum lookback — the number of
bars the longest indicator needs. -/
def minLookback (p : EvalParams) : Nat :=
  max p.shortPeriod p.longPeriod

/-- Simple moving average of the last `n` values of `closes` (0 when `n = 0`). -/
def sma (n : Nat) (closes : List Rat) : Rat :=
  ((closes.drop (closes.length - n)).sum) / (n : Rat)

/-- The hold Intent returned when the window is shorter than the minimum
lookback. -/
def holdShortWindow : Intent :=
  ⟨.flat, 0, "hold_insufficient_history"⟩

/-- Modelled from the spec: `evaluate(parameters, window) -> Intent` (spec
§4.1).  A window shorter than the minimum lookback returns `hold`; otherwise
the short/long moving averages of the closes decide the direction.  It is a
plain function of its two arguments: no I/O, no hidden state. -/
def evaluate (p : EvalParams) (window : List Bar) : Intent :=
  if window.length < minLookback p then holdShortWindow
  else
    let closes := window.map (·.closePrice)
    let s := sma p.shortPeriod closes
    let l := sma p.longPeriod closes
    if l < s then ⟨.long, p.tradeSize, "sma_cross_long"⟩
    else if s < l then ⟨.short, p.tradeSize, "sma_cross_short"⟩
    else ⟨.flat, 0, "hold_no_signal"⟩

/-! ### Backtest Driver (spec §4.5)

Modelled from the spec: the driver replays historical candles through the
Evaluator in timestamp order, one bar at a time, never looking ahead: the
window passed to the Evaluator for bar `t` is exactly the bars up to and
including `t`. -/

/-- Modelled from the spec: the Intent the Backtest Driver computes at bar
index `t` — the Evaluator applied to the window of bars `0..t`. -/
def intentAt (p : EvalParams) (candles : List Bar) (t : Nat) : Intent :=
  evaluate p (candles.take (t + 1))

/-- Modelled from the spec: the whole stream of Intents the Backtest Driver
computes, one per replayed bar. -/
def backtestIntents (p : EvalParams) (candles : List Bar) : List Intent :=
  (List.range candles.length).map (intentAt p candles)

/-- Running state of the fill simulation: the open position (entry time and
entry price), if any, and the closed trades so far. -/
structure SimState where
  position : Option (Nat × Rat)
  trades : List Trade
  deriving Repr, DecidableEq

/-- Modelled from the spec: one step of the fill simulation at bar index `t`.
Fills happen at the next bar's open (spec §4.5: entry fills at next bar's
open to avoid same-bar lookahead bias); a long Intent while flat opens a
position, a flat or short Intent while long closes it and appends the trade. -/
def simStep (p : EvalParams) (candles : List Bar) (st : SimState) (t : Nat) : SimState :=
  match candles[t + 1]? with
  | none => st
  | some fillBar =>
      let i := intentAt p candles t
      match st.position, i.direction with
      | none, .long => { st with position := some (fillBar.time, fillBar.openPrice) }
      | some (et, ep), .flat =>
          { position := none
            trades := st.trades ++
              [⟨"long", et, ep, some fillBar.time, some fillBar.openPrice, p.tradeSize,
                (fillBar.openPrice - ep) * p.tradeSize, i.reason⟩] }
      | some (et, ep), .short =>
          { position := none
            trades := st.trades ++
              [⟨"long", et, ep, some fillBar.time, some fillBar.openPrice, p.tradeSize,
                (fillBar.openPrice - ep) * p.tradeSize, i.reason⟩] }
      | _, _ => st

/-- Modelled from the spec: the ordered trade log the Backtest Driver
accumulates while replaying `candles`. -/
def simulateTrades (p : EvalParams) (candles : List Bar) : List Trade :=
  ((List.range (candles.length - 1)).foldl (simStep p candles) ⟨none, []⟩).trades

/-- Status of a BacktestRun (spec §4.5 state machine). -/
inductive BtStatus where
  | queued
  | running
  | completed
  | failed
  | noData
  deriving Repr, DecidableEq

/-- Modelled from the spec: the transition relation of the BacktestRun state
machine `queued → running → \x7bcompleted | failed | no_data\x7d`. -/
inductive BtTransition : BtStatus → BtStatus → Prop where
  | start : BtTransition .queued .running
  | finishCompleted : BtTransition .running .completed
  | finishFailed : BtTransition .running .failed
  | finishNoData : BtTransition .running .noData

/-- The terminal statuses of a BacktestRun. -/
def BtStatus.isTerminal : BtStatus → Bool
  | .completed | .failed | .noData => true
  | _ => false

/-- The status string each `BtStatus` appears as in the `getBacktest`
response. -/
def BtStatus.toStatusString : BtStatus → String
  | .queued => "queued"
  | .running => "running"
  | .completed => "completed"
  | .failed => "failed"
  | .noData => "no_data"

/-- Modelled from the spec: the terminal status and trade log of a backtest
run — an empty candle set ends in `no_data` with no trade log (spec §4.5);
otherwise the replay completes with the simulated trades.  An execution
fault would end in `failed`; faults are outside this pure model. -/
def runBacktest (p : EvalParams) (candles : List Bar) : BtStatus × List Trade :=
  if candles.isEmpty then (.noData, [])
  else (.completed, simulateTrades p candles)

/-! ### Summary metrics (spec §4.5)

Modelled from the spec: the metric computations of the Backtest Driver. -/

/-- Modelled from the spec: running fold computing the max drawdown of an
equity curve — track the running peak and the largest percentage decline
from it. -/
def maxDrawdownAux : Rat → Rat → List Rat → Rat
  | _, mdd, [] => mdd
  | peak, mdd, e :: rest =>
      let peak2 := max peak e
      maxDrawdownAux peak2 (max mdd ((peak2 - e) / peak2 * 100)) rest

/-- Modelled from the spec: max drawdown of an equity curve, as a percentage
of the peak. -/
def maxDrawdown (xs : List Rat) : Rat :=
  maxDrawdownAux 0 0 xs

/-- Largest percentage decline from the single peak value `peak` to any of
the later values `xs` (0 when `xs` is empty). -/
def peakDD (peak : Rat) : List Rat → Rat
  | [] => 0
  | e :: rest => max ((peak - e) / peak * 100) (peakDD peak rest)

/-- The spec's words, stated directly: the largest peak-to-trough decline of
the equity curve, expressed as a percentage of the peak — for every point
taken as the peak, the largest decline to any point at or after it. -/
def largestDecline : List Rat → Rat
  | [] => 0
  | e :: rest => max (peakDD e (e :: rest)) (largestDecline rest)

/-- Arithmetic mean of a list of periodic returns (0 for the empty list). -/
def listMean (xs : List Rat) : Rat :=
  xs.sum / (xs.length : Rat)

/-- Population variance of a list of periodic returns. -/
def listVariance (xs : List Rat) : Rat :=
  ((xs.map (fun x => (x - listMean xs) ^ 2)).sum) / (xs.length : Rat)

/-- Standard deviation of the periodic returns, as a real number. -/
noncomputable def listStdev (xs : List Rat) : Real :=
  Real.sqrt ((listVariance xs : Rat) : Real)

/-- Modelled from the spec: Sharpe ratio = mean(periodic returns) /
stdev(periodic returns), annualized by √(periods per year); 0 (not an
error) when the stdev is 0 (spec §4.5). -/
noncomputable def sharpeRatio (xs : List Rat) (periodsPerYear : Nat) : Real :=
  if listVariance xs = 0 then 0
  else ((listMean xs : Rat) : Real) / listStdev xs * Real.sqrt (periodsPerYear : Real)

/-! ### Order/Position Ledger (spec §3, §4.2, §4.3)

Modelled from the spec: the Order state machine `pending_submit → submitted →
\x7bfilled | partially_filled | canceled | rejected\x7d`, and the Runner/Ledger
discipline around it: a new Order is persisted `pending_submit` only when
`hasInFlightOrder` is false for the subscription and no Order for that
Intent transition exists yet (spec §7: a terminal gateway error is not
retried for that specific intent); crash and restart never edit the ledger —
reconciliation only moves existing Orders along their state machine. -/

/-- Order states (spec §3).  `partFill` stands for `partially_filled`. -/
inductive OrderState where
  | pendingSubmit
  | submitted
  | filled
  | partFill
  | canceled
  | rejected
  deriving Repr, DecidableEq

/-- An Order is in-flight while it is `pending_submit` or `submitted`. -/
def OrderState.inflight : OrderState → Bool
  | .pendingSubmit | .submitted => true
  | _ => false

/-- An Order has reached `submitted` when its state is `submitted` or a
state only reachable from `submitted`. -/
def OrderState.reachedSubmitted : OrderState → Bool
  | .submitted | .filled | .partFill | .canceled => true
  | _ => false

/-- A ledger Order: its subscription, the Intent transition that caused it,
and its state. -/
structure LOrder where
  subId : Nat
  intentId : Nat
  state : OrderState
  deriving Repr, DecidableEq

/-- The durable Ledger: the append/transition-only list of Orders. -/
abbrev Ledger := List LOrder

/-- The predicate `hasInFlightOrder(subscriptionId)` (spec §4.3): some Order of the
subscription is `pending_submit` or `submitted`. -/
def hasInFlightOrder (l : Ledger) (sub : Nat) : Bool :=
  l.any (fun o => o.subId == sub && o.state.inflight)

/-- Number of in-flight Orders of one subscription. -/
def inflightCount (l : Ledger) (sub : Nat) : Nat :=
  l.countP (fun o => o.subId == sub && o.state.inflight)

/-- Number of Orders recorded for one Intent transition of one subscription. -/
def intentOrderCount (l : Ledger) (sub intent : Nat) : Nat :=
  l.countP (fun o => o.subId == sub && o.intentId == intent)

/-- Number of Orders of one subscription, in any state. -/
def subOrderCount (l : Ledger) (sub : Nat) : Nat :=
  l.countP (fun o => o.subId == sub)

/-- Number of Orders of one Intent transition that reached `submitted`. -/
def submittedCount (l : Ledger) (sub intent : Nat) : Nat :=
  l.countP (fun o => o.subId == sub && o.intentId == intent && o.state.reachedSubmitted)

/-- Modelled from the spec: the events that change the Ledger.
`submitNew` is the Runner persisting a new Order `pending_submit`, guarded by
`hasInFlightOrder` and by per-intent idempotence; `ackOrder` marks a
`pending_submit` Order `submitted` on gateway acknowledgment (also the
restart-reconciliation outcome "yes, I did send this"); `resolve` moves an
in-flight Order to a non-in-flight state (fill, cancel, rejection, or the
reconciliation outcome "never sent").  A crash/restart of the Runner changes
nothing in the durable ledger, so it needs no constructor: any interleaving
of crashes and restarts is an interleaving of these events. -/
inductive LedgerStep : Ledger → Ledger → Prop where
  | submitNew {l : Ledger} (sub intent : Nat)
      (hNoInflight : ∀ o ∈ l, o.subId = sub → o.state.inflight = false)
      (hNoDup : ∀ o ∈ l, o.subId = sub → o.intentId ≠ intent) :
      LedgerStep l (l ++ [⟨sub, intent, .pendingSubmit⟩])
  | ackOrder (l1 l2 : Ledger) (o : LOrder) (h : o.state = .pendingSubmit) :
      LedgerStep (l1 ++ o :: l2) (l1 ++ { o with state := .submitted } :: l2)
  | resolve (l1 l2 : Ledger) (o : LOrder) (s : OrderState)
      (h : o.state.inflight = true) (hs : s.inflight = false) :
      LedgerStep (l1 ++ o :: l2) (l1 ++ { o with state := s } :: l2)

/-- Ledgers reachable from the empty ledger through `LedgerStep` events. -/
inductive LedgerReach : Ledger → Prop where
  | init : LedgerReach []
  | step {l l' : Ledger} : LedgerReach l → LedgerStep l l' → LedgerReach l'

/-! ### RunState lease (spec §3, §4.2, §5)

Modelled from the spec: the durable RunState record — worker lease owner and
lease expiry — and the engine events around it: acquiring a free lease,
renewing a held lease, aborting the iteration when renewal fails, issuing an
order (guarded by holding a non-expired lease), and time passing. -/

/-- The lease part of the RunState record of one subscription. -/
structure LeaseState where
  owner : Option Nat
  expiry : Nat
  deriving Repr, DecidableEq

/-- Worker `w` holds a valid (non-expired) lease at time `now`. -/
def holdsValidLease (ls : LeaseState) (w : Nat) (now : Nat) : Prop :=
  ls.owner = some w ∧ now < ls.expiry

instance (ls : LeaseState) (w now : Nat) : Decidable (holdsValidLease ls w now) := by
  unfold holdsValidLease
  infer_instance

/-- An order issuance recorded by the engine: subscription, worker, time. -/
structure OrderAction where
  sub : Nat
  worker : Nat
  time : Nat
  deriving Repr, DecidableEq

/-- Global engine state: the clock, each subscription's RunState lease, and
the log of order issuances. -/
structure EngineState where
  now : Nat
  leases : Nat → LeaseState
  actions : List OrderAction

/-- Point update of the per-subscription lease map. -/
def setLease (m : Nat → LeaseState) (sub : Nat) (ls : LeaseState) : Nat → LeaseState :=
  fun s => if s = sub then ls else m s

/-- Modelled from the spec: the engine events that touch the RunState lease.
`acquire` succeeds only while no worker holds a valid lease; `renew` is part
of every loop iteration and succeeds only for the current valid holder;
`abortIteration` is the renewal-failure path — the iteration aborts, no
state changes and in particular no order is issued; `issueOrder` is guarded
by holding a non-expired lease. -/
inductive EngineStep : EngineState → EngineState → Prop where
  | tick {s : EngineState} :
      EngineStep s { s with now := s.now + 1 }
  | acquire {s : EngineState} (sub w ttl : Nat)
      (hFree : ∀ w', ¬ holdsValidLease (s.leases sub) w' s.now) (hPos : 0 < ttl) :
      EngineStep s { s with leases := setLease s.leases sub ⟨some w, s.now + ttl⟩ }
  | renew {s : EngineState} (sub w ttl : Nat)
      (hHeld : holdsValidLease (s.leases sub) w s.now) (hPos : 0 < ttl) :
      EngineStep s { s with leases := setLease s.leases sub ⟨some w, s.now + ttl⟩ }
  | abortIteration {s : EngineState} (sub w : Nat)
      (hLost : ¬ holdsValidLease (s.leases sub) w s.now) :
      EngineStep s s
  | issueOrder {s : EngineState} (sub w : Nat)
      (hHeld : holdsValidLease (s.leases sub) w s.now) :
      EngineStep s { s with actions := s.actions ++ [⟨sub, w, s.now⟩] }

/-! ## Helper lemmas -/

theorem pollFetchesFrom_le (responses : Nat → FetchResult) :
    ∀ (n attempt : Nat), pollFetchesFrom responses attempt n ≤ n := by
  intro n
  induction n with
  | zero => intro attempt; simp [pollFetchesFrom]
  | succ m ih =>
      intro attempt
      simp only [pollFetchesFrom]
      split
      · have h2 := ih (attempt + 1)
        omega
      all_goals omega

theorem pollFrom_timeout (responses : Nat → FetchResult) :
    ∀ (n attempt : Nat),
      (∀ a, attempt ≤ a → a < attempt + n → pollStep (responses a) = .keepPolling) →
      pollFrom responses attempt n = .timeout := by
  intro n
  induction n with
  | zero => intro attempt _; simp [pollFrom]
  | succ m ih =>
      intro attempt h
      have hstep : pollStep (responses attempt) = .keepPolling :=
        h attempt (le_refl _) (by omega)
      simp only [pollFrom, hstep]
      exact ih (attempt + 1) (fun a ha1 ha2 => h a (by omega) (by omega))

theorem pollFetchesFrom_all_keep (responses : Nat → FetchResult) :
    ∀ (n attempt : Nat),
      (∀ a, attempt ≤ a → a < attempt + n → pollStep (responses a) = .keepPolling) →
      pollFetchesFrom responses attempt n = n := by
  intro n
  induction n with
  | zero => intro attempt _; simp [pollFetchesFrom]
  | succ m ih =>
      intro attempt h
      have hstep : pollStep (responses attempt) = .keepPolling :=
        h attempt (le_refl _) (by omega)
      simp only [pollFetchesFrom, hstep]
      rw [ih (attempt + 1) (fun a ha1 ha2 => h a (by omega) (by omega))]
      omega

/-! ## Claims -/

/-- C9: the backtest result polling loop always terminates — it polls
`getBacktest` every 5 seconds for at most 360 attempts (30 minutes), and if
no terminal or unknown status is received within that bound it stops and
reports a timeout instead of polling forever. -/
theorem poll_loop_terminates_within_bound :
    (∀ responses : Nat → FetchResult, pollFetches responses ≤ maxAttempts) ∧
    maxAttempts = 360 ∧ pollIntervalMs = 5000 ∧
    pollIntervalMs * maxAttempts = 1800000 ∧
    ∀ responses : Nat → FetchResult,
      (∀ a, 1 ≤ a → a ≤ maxAttempts → pollStep (responses a) = .keepPolling) →
      pollForBacktestResults responses = .timeout := by
  refine ⟨fun responses => pollFetchesFrom_le responses maxAttempts 1, rfl, rfl, rfl, ?_⟩
  intro responses h
  exact pollFrom_timeout responses maxAttempts 1
    (fun a ha1 ha2 => h a ha1 (by omega))

/-- C9 witness: a stream of pure network errors never stops the loop early,
and the loop reports a timeout. -/
theorem poll_loop_terminates_within_bound_witness :
    pollForBacktestResults (fun _ => .networkError) = .timeout :=
  poll_loop_terminates_within_bound.2.2.2.2 (fun _ => .networkError)
    (fun _ _ _ => rfl)

/-- C10: while polling, an HTTP 404 aborts polling immediately (reporting the
backtest ID as not found), whereas every other non-OK HTTP status and every
network error leaves the polling loop running with the attempt counter still
advancing, so transient errors never terminate polling before the attempt
limit. -/
theorem poll_error_handling :
    pollStep (.httpError 404) = .stopNotFound ∧
    (∀ s : Nat, s ≠ 404 → pollStep (.httpError s) = .keepPolling) ∧
    pollStep .networkError = .keepPolling ∧
    ∀ responses : Nat → FetchResult,
      (∀ a, responses a = .networkError ∨ ∃ s, s ≠ 404 ∧ responses a = .httpError s) →
      pollForBacktestResults responses = .timeout ∧
        pollFetches responses = maxAttempts := by
  refine ⟨rfl, fun s hs => by simp [pollStep, hs], rfl, ?_⟩
  intro responses h
  have hkeep : ∀ a, pollStep (responses a) = .keepPolling := by
    intro a
    rcases h a with ha | ⟨s, hs, ha⟩
    · rw [ha]; rfl
    · rw [ha]; simp [pollStep, hs]
  exact ⟨pollFrom_timeout responses maxAttempts 1 (fun a _ _ => hkeep a),
    pollFetchesFrom_all_keep responses maxAttempts 1 (fun a _ _ => hkeep a)⟩

/-- C10 witness: a stream of HTTP 500 responses exhausts all 360 attempts and
times out, while an HTTP 404 stops immediately with "not found". -/
theorem poll_error_handling_witness :
    pollStep (.httpError 404) = .stopNotFound ∧
    pollForBacktestResults (fun _ => .httpError 500) = .timeout ∧
    pollFetches (fun _ => .httpError 500) = maxAttempts :=
  ⟨poll_error_handling.1,
   (poll_error_handling.2.2.2 (fun _ => .httpError 500)
     (fun _ => Or.inr ⟨500, by decide, rfl⟩)).1,
   (poll_error_handling.2.2.2 (fun _ => .httpError 500)
     (fun _ => Or.inr ⟨500, by decide, rfl⟩)).2⟩

/-- C4: `getBacktest(backtestId)` returns `\x7bstatus, details?\x7d` with `details`
(whose type carries exactly `trades_log[]`, `equity_curve[]`, `ohlcv_data[]`,
`sharpe_ratio`, `max_drawdown`, `win_rate`, `total_trades`, `pnl`,
`pnl_percentage` and `final_equity`) present exactly for `status ==
completed`; for every non-completed status the polling client renders no
result details — `displayBacktestResults` is reached only on `completed`. -/
theorem details_only_when_completed :
    ∀ r : BacktestResultResponse, wellFormedResponse r →
      ((∃ d, r.details = some d) ↔ r.status = "completed") ∧
      (r.status ≠ "completed" → ∀ b, pollStep (.ok r) ≠ .stopRender b) := by
  intro r hwf
  constructor
  · rw [← Option.isSome_iff_exists]
    exact hwf
  · intro hne b
    simp only [pollStep, hne, if_false, false_or]
    split_ifs <;> simp

/-- C4 witness: a well-formed `failed` response carries no details and the
client does not render result details for it. -/
theorem details_only_when_completed_witness :
    pollStep (.ok ⟨"failed", some "boom", none⟩) ≠
      .stopRender ⟨"failed", some "boom", none⟩ :=
  (details_only_when_completed ⟨"failed", some "boom", none⟩
      (by simp [wellFormedResponse])).2 (by simp) _

/-- C5: a backtest run follows `queued → running → \x7bcompleted | failed |
no_data\x7d`; an empty candle set ends in `no_data` (not `failed`) with no
trade log; `queued` and `running` are the only non-terminal statuses; and
the polling client keeps polling exactly on the machine's non-terminal
statuses, stopping exactly on `completed`, `failed` and `no_data`. -/
theorem backtest_status_machine :
    (∀ p : EvalParams, runBacktest p [] = (.noData, [])) ∧
    (∀ s' : BtStatus, BtTransition .queued s' ↔ s' = .running) ∧
    (∀ s' : BtStatus, BtTransition .running s' ↔ s'.isTerminal = true) ∧
    (∀ s s' : BtStatus, BtTransition s s' → s.isTerminal = false) ∧
    (∀ s : BtStatus, s.isTerminal = false ↔ (s = .queued ∨ s = .running)) ∧
    (∀ (s : BtStatus) (r : BacktestResultResponse), r.status = s.toStatusString →
      (pollStep (.ok r) = .keepPolling ↔ s.isTerminal = false)) := by
  refine ⟨fun p => rfl, ?_, ?_, ?_, ?_, ?_⟩
  · intro s'
    constructor
    · intro h; cases h; rfl
    · intro h; subst h; exact .start
  · intro s'
    constructor
    · intro h; cases h <;> rfl
    · intro h
      cases s' with
      | completed => exact .finishCompleted
      | failed => exact .finishFailed
      | noData => exact .finishNoData
      | queued => simp [BtStatus.isTerminal] at h
      | running => simp [BtStatus.isTerminal] at h
  · intro s s' h; cases h <;> rfl
  · intro s; cases s <;> simp [BtStatus.isTerminal]
  · intro s r hr
    cases s <;> simp [pollStep, hr, BtStatus.toStatusString, BtStatus.isTerminal]

/-- C5 witness: the empty candle set yields `no_data` with an empty trade
log, and a `no_data` response stops the client's polling. -/
theorem backtest_status_machine_witness :
    runBacktest ⟨2, 3, 1⟩ [] = (.noData, []) ∧
    (pollStep (.ok ⟨"no_data", none, none⟩) = .keepPolling ↔
      BtStatus.noData.isTerminal = false) :=
  ⟨backtest_status_machine.1 ⟨2, 3, 1⟩,
   backtest_status_machine.2.2.2.2.2 .noData ⟨"no_data", none, none⟩ rfl⟩

/-- C8: for every parameter set, a window shorter than the strategy's
minimum lookback makes `evaluate` return the hold Intent — it is a total
function, so it never raises — and `evaluate` is a deterministic,
side-effect-free function of its inputs: equal parameters and equal windows
give equal Intents. -/
theorem evaluate_hold_and_deterministic :
    (∀ (p : EvalParams) (w : List Bar),
      w.length < minLookback p → evaluate p w = holdShortWindow) ∧
    (∀ (p p' : EvalParams) (w w' : List Bar),
      p = p' → w = w' → evaluate p w = evaluate p' w') := by
  constructor
  · intro p w h
    simp [evaluate, h]
  · intro p p' w w' hp hw
    rw [hp, hw]

/-- C8 witness: a 2-bar window is shorter than a lookback of 3 and evaluates
to the hold Intent. -/
theorem evaluate_hold_and_deterministic_witness :
    evaluate ⟨2, 3, 1⟩
      [⟨1, 10, 10, 10, 10, 1⟩, ⟨2, 11, 11, 11, 11, 1⟩] = holdShortWindow :=
  evaluate_hold_and_deterministic.1 ⟨2, 3, 1⟩
    [⟨1, 10, 10, 10, 10, 1⟩, ⟨2, 11, 11, 11, 11, 1⟩] (by decide)

/-- C1: in backtest mode, for every bar index `t` of a timestamp-ordered
candle sequence, the Evaluator call for bar `t` receives only the bars
`0..t` — every bar in its window has timestamp ≤ the timestamp of bar `t` —
and the driver's Intent stream evaluates exactly that window; perturbing any
bar at index `t+1` or later (any replacement sequence agreeing on the bars
up to `t`) never changes the Intent computed at `t`. -/
theorem backtest_no_lookahead :
    ∀ (p : EvalParams) (candles : List Bar),
      List.Pairwise (fun a b => a.time ≤ b.time) candles →
      ∀ (t : Nat) (ht : t < candles.length),
        (∀ b ∈ candles.take (t + 1), b.time ≤ (candles.get ⟨t, ht⟩).time) ∧
        (backtestIntents p candles)[t]? = some (intentAt p candles t) ∧
        (∀ candles' : List Bar, candles.take (t + 1) = candles'.take (t + 1) →
          intentAt p candles t = intentAt p candles' t) := by
  intro p candles hsorted t ht
  refine ⟨?_, ?_, ?_⟩
  · intro b hb
    rw [List.mem_iff_get] at hb
    obtain ⟨⟨i, hi⟩, hget⟩ := hb
    have hilen : i < candles.length := by
      simp [List.length_take] at hi
      omega
    have hit : i < t + 1 := by
      simp [List.length_take] at hi
      omega
    have hbi : b = candles.get ⟨i, hilen⟩ := by
      rw [← hget]
      simp [List.get_eq_getElem, List.getElem_take]
    rcases Nat.lt_or_ge i t with hlt | hge
    · rw [hbi]
      exact (List.pairwise_iff_get.mp hsorted) ⟨i, hilen⟩ ⟨t, ht⟩ hlt
    · have : i = t := by omega
      subst this
      rw [hbi]
  · simp [backtestIntents, List.getElem?_map, List.getElem?_range, ht]
  · intro candles' hagree
    unfold intentAt
    rw [hagree]

/-- C1 witness: on a concrete 3-bar sorted sequence, the window at `t = 1`
stays within timestamps ≤ bar 1, the driver stream matches, and changing
bar 2 does not change the Intent at bar 1. -/
theorem backtest_no_lookahead_witness :
    intentAt ⟨1, 2, 1⟩
        [⟨1, 10, 10, 10, 10, 1⟩, ⟨2, 11, 11, 11, 11, 1⟩, ⟨3, 12, 12, 12, 12, 1⟩] 1 =
      intentAt ⟨1, 2, 1⟩
        [⟨1, 10, 10, 10, 10, 1⟩, ⟨2, 11, 11, 11, 11, 1⟩, ⟨3, 99, 99, 99, 99, 9⟩] 1 :=
  (backtest_no_lookahead ⟨1, 2, 1⟩
      [⟨1, 10, 10, 10, 10, 1⟩, ⟨2, 11, 11, 11, 11, 1⟩, ⟨3, 12, 12, 12, 12, 1⟩]
      (by decide) 1 (by decide)).2.2
    [⟨1, 10, 10, 10, 10, 1⟩, ⟨2, 11, 11, 11, 11, 1⟩, ⟨3, 99, 99, 99, 99, 9⟩]
    (by decide)

theorem listVariance_nonneg (xs : List Rat) : (0 : Rat) ≤ listVariance xs := by
  unfold listVariance
  apply div_nonneg
  · apply List.sum_nonneg
    intro y hy
    rw [List.mem_map] at hy
    obtain ⟨x, _, hx⟩ := hy
    rw [← hx]
    exact sq_nonneg _
  · exact_mod_cast Nat.zero_le _

/-- C7: the Sharpe ratio equals mean(periodic returns) / stdev(periodic
returns) annualized by √(periods per year), and equals 0 — not an error —
whenever the standard deviation of the periodic returns is 0. -/
theorem sharpe_zero_stdev_and_formula :
    ∀ (xs : List Rat) (ppy : Nat),
      (listStdev xs = 0 → sharpeRatio xs ppy = 0) ∧
      (listStdev xs ≠ 0 →
        sharpeRatio xs ppy =
          ((listMean xs : Rat) : Real) / listStdev xs * Real.sqrt (ppy : Real)) := by
  intro xs ppy
  have hv : (0 : Rat) ≤ listVariance xs := listVariance_nonneg xs
  have hcast : (0 : Real) ≤ ((listVariance xs : Rat) : Real) := by exact_mod_cast hv
  constructor
  · intro h0
    unfold listStdev at h0
    have hz : ((listVariance xs : Rat) : Real) = 0 := (Real.sqrt_eq_zero hcast).mp h0
    have hv0 : listVariance xs = 0 := by exact_mod_cast hz
    simp [sharpeRatio, hv0]
  · intro hne
    have hv0 : listVariance xs ≠ 0 := by
      intro h
      apply hne
      simp [listStdev, h]
    simp [sharpeRatio, hv0]

/-- C7 witness: three identical periodic returns have zero stdev and Sharpe
ratio 0. -/
theorem sharpe_zero_stdev_and_formula_witness :
    sharpeRatio [2, 2, 2] 365 = 0 :=
  (sharpe_zero_stdev_and_formula [2, 2, 2] 365).1
    (by
      have hv : listVariance [2, 2, 2] = 0 := by
        norm_num [listVariance, listMean]
      simp [listStdev, hv])

theorem dd_mono (p1 p2 x : Rat) (h1 : 0 < p1) (h12 : p1 ≤ p2) (hx : 0 ≤ x) :
    (p1 - x) / p1 * 100 ≤ (p2 - x) / p2 * 100 := by
  have h2 : 0 < p2 := lt_of_lt_of_le h1 h12
  have key : (p1 - x) / p1 ≤ (p2 - x) / p2 := by
    rw [div_le_div_iff₀ h1 h2]
    nlinarith
  nlinarith [key]

theorem dd_max_split (a b x : Rat) (ha : 0 < a) (hb : 0 < b) (hx : 0 ≤ x) :
    (max a b - x) / max a b * 100 = max ((a - x) / a * 100) ((b - x) / b * 100) := by
  rcases le_total a b with h | h
  · rw [max_eq_right h, max_eq_right (dd_mono a b x ha h hx)]
  · rw [max_eq_left h, max_eq_left (dd_mono b a x hb h hx)]

theorem peakDD_max_split (a b : Rat) (ha : 0 < a) (hb : 0 < b) :
    ∀ xs : List Rat, (∀ x ∈ xs, 0 < x) →
      peakDD (max a b) xs = max (peakDD a xs) (peakDD b xs) := by
  intro xs
  induction xs with
  | nil => intro _; simp [peakDD]
  | cons e rest ih =>
      intro hpos
      have he : 0 < e := hpos e (List.mem_cons_self e rest)
      have hrest : ∀ x ∈ rest, 0 < x := fun x hx => hpos x (List.mem_cons_of_mem e hx)
      simp only [peakDD]
      rw [dd_max_split a b e ha hb (le_of_lt he), ih hrest, max_max_max_comm]

theorem largestDecline_nonneg : ∀ xs : List Rat, 0 ≤ largestDecline xs := by
  intro xs
  induction xs with
  | nil => exact le_refl 0
  | cons e rest ih =>
      simp only [largestDecline]
      exact le_trans ih (le_max_right _ _)

theorem maxDrawdownAux_eq :
    ∀ (xs : List Rat) (peak mdd : Rat), 0 < peak → 0 ≤ mdd → (∀ x ∈ xs, 0 < x) →
      maxDrawdownAux peak mdd xs =
        max mdd (max (peakDD peak xs) (largestDecline xs)) := by
  intro xs
  induction xs with
  | nil =>
      intro peak mdd _ hm _
      simp [maxDrawdownAux, peakDD, largestDecline, max_eq_left hm]
  | cons e rest ih =>
      intro peak mdd hp hm hpos
      have he : 0 < e := hpos e (List.mem_cons_self e rest)
      have hrest : ∀ x ∈ rest, 0 < x := fun x hx => hpos x (List.mem_cons_of_mem e hx)
      have hp2 : 0 < max peak e := lt_of_lt_of_le hp (le_max_left _ _)
      have hm2 : 0 ≤ max mdd ((max peak e - e) / max peak e * 100) :=
        le_trans hm (le_max_left _ _)
      simp only [maxDrawdownAux]
      rw [ih (max peak e) (max mdd ((max peak e - e) / max peak e * 100)) hp2 hm2 hrest]
      rw [dd_max_split peak e e hp he (le_of_lt he),
        peakDD_max_split peak e hp he rest hrest]
      have hee : (e - e) / e * 100 = 0 := by rw [sub_self, zero_div, zero_mul]
      rw [hee]
      simp only [peakDD, largestDecline, hee]
      simp [max_assoc, max_comm, max_left_comm]

/-- C6: the backtest max drawdown (running-peak fold) equals the largest
peak-to-trough decline of the equity curve expressed as a percentage of the
peak, for every positive equity curve; in particular an equity curve that
rises from 10000 to 12000 and then falls to 10800 has max drawdown
(12000 − 10800)/12000 = 10%. -/
theorem max_drawdown_correct :
    (∀ xs : List Rat, (∀ x ∈ xs, 0 < x) → maxDrawdown xs = largestDecline xs) ∧
    maxDrawdown [10000, 12000, 10800] = 10 := by
  constructor
  · intro xs hpos
    cases xs with
    | nil => rfl
    | cons x rest =>
        have hx : 0 < x := hpos x (List.mem_cons_self x rest)
        have hrest : ∀ y ∈ rest, 0 < y := fun y hy => hpos y (List.mem_cons_of_mem x hy)
        have hxx : (x - x) / x * 100 = 0 := by rw [sub_self, zero_div, zero_mul]
        simp only [maxDrawdown, maxDrawdownAux]
        rw [max_eq_right (le_of_lt hx), hxx]
        rw [maxDrawdownAux_eq rest x (max 0 0) hx (by simp) hrest]
        simp only [largestDecline, peakDD, hxx]
        rw [max_self]
        rw [max_assoc]
  · norm_num [maxDrawdown, maxDrawdownAux]

/-- C6 witness: on the fixture curve the fold and the peak-to-trough
formula agree. -/
theorem max_drawdown_correct_witness :
    maxDrawdown [10000, 12000, 10800] = largestDecline [10000, 12000, 10800] :=
  max_drawdown_correct.1 [10000, 12000, 10800] (by decide)

theorem ledger_step_invariant (l l' : Ledger) (hstep : LedgerStep l l')
    (ih1 : ∀ sub, inflightCount l sub ≤ 1)
    (ih2 : ∀ sub intent, intentOrderCount l sub intent ≤ 1) :
    (∀ sub, inflightCount l' sub ≤ 1) ∧
      (∀ sub intent, intentOrderCount l' sub intent ≤ 1) := by
  cases hstep with
  | submitNew sub intent hNoInflight hNoDup =>
      constructor
      · intro sub'
        have h1 := ih1 sub'
        unfold inflightCount at *
        rw [List.countP_append, List.countP_singleton]
        by_cases hss : sub' = sub
        · subst hss
          have hzero :
              List.countP (fun o => o.subId == sub' && o.state.inflight) l = 0 := by
            rw [List.countP_eq_zero]
            intro o ho
            simp only [Bool.and_eq_true, beq_iff_eq, not_and]
            intro hsubeq
            rw [hNoInflight o ho hsubeq]
            simp
          rw [hzero]
          split <;> omega
        · have hx : ((⟨sub, intent, .pendingSubmit⟩ : LOrder).subId == sub' &&
              (⟨sub, intent, .pendingSubmit⟩ : LOrder).state.inflight) = false := by
            simp only [Bool.and_eq_false_iff]
            left
            simp only [beq_eq_false_iff_ne, ne_eq]
            exact fun hc => hss hc.symm
          rw [hx]
          simp only [Bool.false_eq_true, if_false]
          omega
      · intro sub' i'
        have h1 := ih2 sub' i'
        unfold intentOrderCount at *
        rw [List.countP_append, List.countP_singleton]
        by_cases hsi : sub' = sub ∧ i' = intent
        · obtain ⟨hs, hi⟩ := hsi
          subst hs; subst hi
          have hzero :
              List.countP (fun o => o.subId == sub' && o.intentId == i') l = 0 := by
            rw [List.countP_eq_zero]
            intro o ho
            simp only [Bool.and_eq_true, beq_iff_eq, not_and]
            intro hsubeq
            exact fun h2 => hNoDup o ho hsubeq h2
          rw [hzero]
          split <;> omega
        · have hx : ((⟨sub, intent, .pendingSubmit⟩ : LOrder).subId == sub' &&
              (⟨sub, intent, .pendingSubmit⟩ : LOrder).intentId == i') = false := by
            simp only [Bool.and_eq_false_iff, beq_eq_false_iff_ne, ne_eq]
            by_cases hs : sub = sub'
            · right
              intro hi
              exact hsi ⟨hs.symm, hi.symm⟩
            · left; exact hs
          rw [hx]
          simp only [Bool.false_eq_true, if_false]
          omega
  | ackOrder l1 l2 o hpend =>
      constructor
      · intro sub
        have h1 := ih1 sub
        unfold inflightCount at *
        simp only [List.countP_append, List.countP_cons] at *
        have hpe : (({ o with state := OrderState.submitted } : LOrder).subId == sub &&
            ({ o with state := OrderState.submitted } : LOrder).state.inflight) =
            (o.subId == sub && o.state.inflight) := by
          simp [hpend, OrderState.inflight]
        rw [hpe]
        omega
      · intro sub i
        have h1 := ih2 sub i
        unfold intentOrderCount at *
        simp only [List.countP_append, List.countP_cons] at *
        have hpe : (({ o with state := OrderState.submitted } : LOrder).subId == sub &&
            ({ o with state := OrderState.submitted } : LOrder).intentId == i) =
            (o.subId == sub && o.intentId == i) := rfl
        rw [hpe]
        omega
  | resolve l1 l2 o s hinfl hs =>
      constructor
      · intro sub
        have h1 := ih1 sub
        unfold inflightCount at *
        simp only [List.countP_append, List.countP_cons] at *
        have hpe : (({ o with state := s } : LOrder).subId == sub &&
            ({ o with state := s } : LOrder).state.inflight) = false := by
          simp only [Bool.and_eq_false_iff]
          right
          exact hs
        rw [hpe]
        simp only [Bool.false_eq_true, if_false]
        omega
      · intro sub i
        have h1 := ih2 sub i
        unfold intentOrderCount at *
        simp only [List.countP_append, List.countP_cons] at *
        have hpe : (({ o with state := s } : LOrder).subId == sub &&
            ({ o with state := s } : LOrder).intentId == i) =
            (o.subId == sub && o.intentId == i) := rfl
        rw [hpe]
        omega

theorem ledger_reach_invariant :
    ∀ l : Ledger, LedgerReach l →
      (∀ sub, inflightCount l sub ≤ 1) ∧
      (∀ sub intent, intentOrderCount l sub intent ≤ 1) := by
  intro l h
  induction h with
  | init =>
      exact ⟨fun sub => by simp [inflightCount], fun sub i => by simp [intentOrderCount]⟩
  | step hreach hstep ih =>
      exact ledger_step_invariant _ _ hstep ih.1 ih.2

/-- C2: at every reachable Ledger state, at most one Order per subscription
is `pending_submit` or `submitted` ("exactly one may be"); the Runner never
books a second Order for a subscription while one is in-flight (any
`LedgerStep` from a state with an in-flight Order leaves that subscription's
order count unchanged); and across any interleaving of crashes and restarts
— which never edit the durable ledger — the number of Orders reaching
`submitted` for one Intent transition never exceeds one. -/
theorem one_inflight_order_and_no_duplicates :
    (∀ l : Ledger, LedgerReach l →
      (∀ sub, inflightCount l sub ≤ 1) ∧
      (∀ sub intent, submittedCount l sub intent ≤ 1)) ∧
    (∀ (l l' : Ledger) (sub : Nat), hasInFlightOrder l sub = true →
      LedgerStep l l' → subOrderCount l' sub = subOrderCount l sub) := by
  constructor
  · intro l hreach
    have hinv := ledger_reach_invariant l hreach
    refine ⟨hinv.1, fun sub intent => ?_⟩
    have hmono : submittedCount l sub intent ≤ intentOrderCount l sub intent := by
      unfold submittedCount intentOrderCount
      apply List.countP_mono_left
      intro o ho h
      simp only [Bool.and_eq_true] at h ⊢
      exact h.1
    exact le_trans hmono (hinv.2 sub intent)
  · intro l l' sub hin hstep
    cases hstep with
    | submitNew sub' intent hNoInflight hNoDup =>
        unfold subOrderCount
        rw [List.countP_append, List.countP_singleton]
        have hne : sub' ≠ sub := by
          intro heq
          subst heq
          unfold hasInFlightOrder at hin
          rw [List.any_eq_true] at hin
          obtain ⟨o, ho, hp⟩ := hin
          simp only [Bool.and_eq_true, beq_iff_eq] at hp
          rw [hNoInflight o ho hp.1] at hp
          exact Bool.false_ne_true hp.2
        have hx : ((⟨sub', intent, .pendingSubmit⟩ : LOrder).subId == sub) = false := by
          simp only [beq_eq_false_iff_ne, ne_eq]
          exact hne
        rw [hx]
        simp
    | ackOrder l1 l2 o hpend =>
        unfold subOrderCount
        simp only [List.countP_append, List.countP_cons]
    | resolve l1 l2 o st hinfl hst =>
        unfold subOrderCount
        simp only [List.countP_append, List.countP_cons]

/-- C2 witness: the ledger reached by booking Order (sub 1, intent 7) as
`pending_submit` and acknowledging it `submitted` satisfies both bounds. -/
theorem one_inflight_order_and_no_duplicates_witness :
    inflightCount [⟨1, 7, OrderState.submitted⟩] 1 ≤ 1 ∧
    submittedCount [⟨1, 7, OrderState.submitted⟩] 1 7 ≤ 1 := by
  have r1 : LedgerReach [⟨1, 7, .pendingSubmit⟩] :=
    LedgerReach.step LedgerReach.init
      (LedgerStep.submitNew 1 7 (by simp) (by simp))
  have r2 : LedgerReach [⟨1, 7, .submitted⟩] :=
    LedgerReach.step r1
      (LedgerStep.ackOrder [] [] ⟨1, 7, .pendingSubmit⟩ rfl)
  exact ⟨(one_inflight_order_and_no_duplicates.1 _ r2).1 1,
         (one_inflight_order_and_no_duplicates.1 _ r2).2 1 7⟩

/-- C3: at most one worker holds a valid (non-expired) RunState lease for a
subscription at any time — the durable lease record names a single owner —
and every order issuance the engine performs happens under a valid lease at
the moment of issuance; the renewal-failure path (`abortIteration`) and
every other step issue nothing, so losing the lease mid-iteration aborts
before any order is issued. -/
theorem lease_exclusivity_and_guarded_actions :
    (∀ (ls : LeaseState) (w w' now : Nat),
      holdsValidLease ls w now → holdsValidLease ls w' now → w = w') ∧
    (∀ s s' : EngineState, EngineStep s s' →
      ∀ a : OrderAction, a ∈ s'.actions → a ∉ s.actions →
        holdsValidLease (s.leases a.sub) a.worker s.now ∧ a.time = s.now) := by
  constructor
  · rintro ls w w' now ⟨ho, _⟩ ⟨ho', _⟩
    exact Option.some.inj (ho.symm.trans ho')
  · intro s s' hstep a ha hna
    cases hstep with
    | tick => exact absurd ha hna
    | acquire sub w ttl hFree hPos => exact absurd ha hna
    | renew sub w ttl hHeld hPos => exact absurd ha hna
    | abortIteration sub w hLost => exact absurd ha hna
    | issueOrder sub w hHeld =>
        rcases List.mem_append.mp ha with h | h
        · exact absurd h hna
        · have heq : a = ⟨sub, w, s.now⟩ := by simpa using h
          subst heq
          exact ⟨hHeld, rfl⟩

/-- C3 witness: with worker 1 holding a lease valid until time 5, any second
valid holder at time 0 is worker 1 itself, and the order issued by worker 1
at time 0 was issued under a valid lease at that time. -/
theorem lease_exclusivity_and_guarded_actions_witness :
    (1 : Nat) = 1 ∧
    (holdsValidLease ((⟨0, fun _ => ⟨some 1, 5⟩, []⟩ : EngineState).leases 0) 1 0 ∧
      (0 : Nat) = 0) :=
  ⟨lease_exclusivity_and_guarded_actions.1 ⟨some 1, 5⟩ 1 1 0
      ⟨rfl, by decide⟩ ⟨rfl, by decide⟩,
   lease_exclusivity_and_guarded_actions.2 ⟨0, fun _ => ⟨some 1, 5⟩, []⟩ _
      (EngineStep.issueOrder 0 1 ⟨rfl, by decide⟩) ⟨0, 1, 0⟩ (by simp) (by simp)⟩

end TradingEngine
